import Mathlib

/-!
Verification of the dataflow-graph runtime (ports, activators, edges,
work-stealing scheduler) against its natural-language specification.

The definitions below are a shallow embedding of the Rust sources:

* `src/parallel/port.rs`        - the mutex-backed single-cell port;
* `src/common/port.rs`          - the `NodeInput` (sender + activator) edge;
* `src/common/edge.rs`          - the `CloneOutput` fan-out edge;
* `src/parallel/single_use.rs`  - the single-use runtime (reference-counted
  activators, builder, work-stealing execute loop);
* `src/parallel/multiple_uses.rs` - the reusable runtime (rearming
  activators, builder, handle execution, work-stealing execute loop).

Machine integers (`AtomicUsize`) are modelled as `Nat`; the one place where
Rust performs a wrapping subtraction (`fetch_sub` on an already-zero count in
the single-use activator) wraps explicitly modulo `2 ^ 64`.  Code paths that
panic in Rust (`assert!`, `unwrap`, slice index out of bounds) are modelled
with `Option` (`none` = panic) or with an explicit `panicked` outcome.
-/

/-! ### Mutex-backed port (`src/parallel/port.rs`)

`impl<T> Sender for Mutex<T>`: `send` locks the cell and overwrites its
contents.  `impl<T: Default> Receiver for Mutex<T>`: `recv` locks the cell
and `mem::replace`s its contents with `Default::default()`.  The mutex only
serializes access, so the cell is modelled as a bare value of type `V`;
`default` of the `Inhabited` instance plays the role of `Default::default()`.
-/

/-- `Sender::send` for `Mutex<T>`: replace the cell contents with the item
(`*ctnt = item`). -/
def mutexSend {V : Type} (_cell : V) (item : V) : V :=
  item

/-- `Receiver::recv` for `Mutex<T>`: `mem::replace(&mut *lock, Default::default())`
returns the current contents and leaves the default value in the cell. -/
def mutexRecv {V : Type} [Inhabited V] (cell : V) : V × V :=
  (cell, default)

/-! ### Node-input edges (`src/common/port.rs`, `NodeInput`)

A `NodeInput` bundles a port sender with the downstream node's activator.
`send_activate` (and its `once`/`mut` siblings) first sends the item through
the sender, then activates the activator.  The edge state below bundles the
port cell with the downstream activator's pending count and the downstream
node id; the scheduler state carries the ready queue and an event trace that
records the order of the primitive operations.

The activator component follows the reference-counted runtime activators:
`activate` decrements the pending count (`none` models the panic of the
asserted decrement of the reusable runtime when the count is already zero)
and pushes the node onto the ready queue exactly when the count reaches
zero. -/

/-- The state of one node-input edge: the port cell, the downstream
activator's pending count, and the downstream node's identifier. -/
structure EdgeState (V : Type) where
  cell : V
  pending : Nat
  nodeId : Nat
deriving DecidableEq, Repr

/-- Events recorded by the edge operations, in execution order. -/
inductive EdgeEvent (V : Type) where
  /-- the sender wrote `v` into the port cell feeding node `n` -/
  | sendEv (n : Nat) (v : V)
  /-- the activator of node `n` was decremented -/
  | activateEv (n : Nat)
  /-- node `n` was pushed onto the ready queue -/
  | scheduleEv (n : Nat)
deriving DecidableEq, Repr

/-- Scheduler state threaded through edge operations: the ready queue of
node ids plus the trace of events so far. -/
structure Sched (V : Type) where
  ready : List Nat
  trace : List (EdgeEvent V)
deriving DecidableEq, Repr

/-- `self.sender.send(item)`: write the item into the edge's port cell. -/
def portSend {V : Type} (v : V) : EdgeState V × Sched V → EdgeState V × Sched V :=
  fun (e, s) =>
    ({ e with cell := mutexSend e.cell v },
     { s with trace := s.trace ++ [EdgeEvent.sendEv e.nodeId v] })

/-- `self.activator.activate(scheduler)`: decrement the downstream pending
count; when it reaches zero push the node onto the ready queue.  `none`
models the panicking decrement of an already-zero count. -/
def activatorActivate {V : Type} : EdgeState V × Sched V → Option (EdgeState V × Sched V) :=
  fun (e, s) =>
    if e.pending = 0 then
      none
    else
      let e2 := { e with pending := e.pending - 1 }
      if e.pending - 1 = 0 then
        some (e2, { s with ready := s.ready ++ [e.nodeId],
                           trace := s.trace ++ [EdgeEvent.activateEv e.nodeId,
                                                EdgeEvent.scheduleEv e.nodeId] })
      else
        some (e2, { s with trace := s.trace ++ [EdgeEvent.activateEv e.nodeId] })

/-- `NodeInput::send_activate_once` (`OutputEdgeOnce` impl):
`self.sender.send_once(item); self.activator.activate_once(scheduler)`. -/
def sendActivateOnce {V : Type} (v : V) (es : EdgeState V × Sched V) :
    Option (EdgeState V × Sched V) :=
  activatorActivate (portSend v es)

/-- `NodeInput::send_activate_mut` (`OutputEdgeMut` impl):
`self.sender.send_mut(item); self.activator.activate_mut(scheduler)`. -/
def sendActivateMut {V : Type} (v : V) (es : EdgeState V × Sched V) :
    Option (EdgeState V × Sched V) :=
  activatorActivate (portSend v es)

/-- `NodeInput::send_activate` (`OutputEdge` impl):
`self.sender.send(item); self.activator.activate(scheduler)`. -/
def sendActivate {V : Type} (v : V) (es : EdgeState V × Sched V) :
    Option (EdgeState V × Sched V) :=
  activatorActivate (portSend v es)

/-- The downstream task's `recv` on the edge's port (mutex receiver):
returns the cell value and leaves the default behind. -/
def edgeRecv {V : Type} [Inhabited V] (e : EdgeState V) : V × EdgeState V :=
  ((mutexRecv e.cell).1, { e with cell := (mutexRecv e.cell).2 })

/-- Normal form of `sendActivate` on an armed edge, used by the fan-out
proofs. -/
theorem sendActivate_eq {V : Type} (v : V) (e : EdgeState V) (s : Sched V)
    (h : 1 ≤ e.pending) :
    sendActivate v (e, s) =
      some ({ cell := v, pending := e.pending - 1, nodeId := e.nodeId },
            if e.pending = 1 then
              { ready := s.ready ++ [e.nodeId],
                trace := s.trace ++ [EdgeEvent.sendEv e.nodeId v,
                                     EdgeEvent.activateEv e.nodeId,
                                     EdgeEvent.scheduleEv e.nodeId] }
            else
              { ready := s.ready,
                trace := s.trace ++ [EdgeEvent.sendEv e.nodeId v,
                                     EdgeEvent.activateEv e.nodeId] }) := by
  have hne : e.pending ≠ 0 := by omega
  unfold sendActivate activatorActivate portSend mutexSend
  simp only [hne, if_false]
  by_cases h1 : e.pending = 1
  · simp [h1]
  · have h2 : ¬ (e.pending - 1 = 0) := by omega
    simp [h1, h2]

/-- C1: for every node-input edge and every value `v`, `send_activate`
(and its `once`/`mut` variants, whose bodies are identical) first writes `v`
into the port cell via the sender's `send` and only then decrements the
downstream activator: the state handed to the activation step already holds
`v`, the trace records the send strictly before the activation, and when the
activation fires, the downstream task's `recv` on that edge returns `v`, the
value of the immediately preceding upstream send. -/
theorem nodeInput_send_before_activate {V : Type} [Inhabited V]
    (v : V) (e : EdgeState V) (s : Sched V) (h : 1 ≤ e.pending) :
    sendActivateOnce v (e, s) = activatorActivate (portSend v (e, s)) ∧
    sendActivateMut v (e, s) = activatorActivate (portSend v (e, s)) ∧
    sendActivate v (e, s) = activatorActivate (portSend v (e, s)) ∧
    (portSend v (e, s)).1.cell = v ∧
    (∀ e2 s2, sendActivate v (e, s) = some (e2, s2) →
      s2.trace = s.trace ++ [EdgeEvent.sendEv e.nodeId v, EdgeEvent.activateEv e.nodeId]
          ++ (if e.pending = 1 then [EdgeEvent.scheduleEv e.nodeId] else []) ∧
      (edgeRecv e2).1 = v ∧
      (e.pending = 1 → s2.ready = s.ready ++ [e.nodeId])) := by
  refine ⟨rfl, rfl, rfl, rfl, fun e2 s2 heq => ?_⟩
  rw [sendActivate_eq v e s h] at heq
  by_cases h1 : e.pending = 1
  · simp only [h1, if_true, Option.some_inj, Prod.mk.injEq] at heq
    obtain ⟨he, hs⟩ := heq
    subst he hs
    simp [edgeRecv, mutexRecv, h1]
  · simp only [h1, if_false, Option.some_inj, Prod.mk.injEq] at heq
    obtain ⟨he, hs⟩ := heq
    subst he hs
    simp [edgeRecv, mutexRecv, h1]

/-- Witness for `nodeInput_send_before_activate` at a concrete edge with
pending count `1` and value `42`: the cell holds `42` before the activation
step, and the fired downstream task's `recv` returns `42`. -/
theorem nodeInput_send_before_activate_witness :
    (portSend 42 (({ cell := 0, pending := 1, nodeId := 5 } : EdgeState Nat),
        ({ ready := [], trace := [] } : Sched Nat))).1.cell = 42 ∧
    (edgeRecv ({ cell := 42, pending := 0, nodeId := 5 } : EdgeState Nat)).1 = 42 := by
  have h := nodeInput_send_before_activate 42 { cell := 0, pending := 1, nodeId := 5 }
    { ready := [], trace := [] } (by decide)
  refine ⟨h.2.2.2.1, ?_⟩
  exact (h.2.2.2.2 { cell := 42, pending := 0, nodeId := 5 }
    { ready := [5], trace := [EdgeEvent.sendEv 5 42, EdgeEvent.activateEv 5,
                              EdgeEvent.scheduleEv 5] } (by rfl)).2.1

/-- C8: for the mutex-backed port, a `recv` following `send v` returns `v`
and leaves the default value in the cell, so a further `recv` without an
intervening send returns the default value, not the stale `v`. -/
theorem mutex_port_send_recv {V : Type} [Inhabited V] (cell v : V) :
    (mutexRecv (mutexSend cell v)).1 = v ∧
    (mutexRecv (mutexSend cell v)).2 = default ∧
    (mutexRecv (mutexRecv (mutexSend cell v)).2).1 = (default : V) := by
  exact ⟨rfl, rfl, rfl⟩

/-! ### Clone-output fan-out edges (`src/common/edge.rs`, `CloneOutput`)

A `CloneOutput` holds a `Vec` of downstream edges.  `connect` pushes a new
edge at the end of the vector; `send_activate` iterates over the vector in
order and calls `send_activate(scheduler, item.clone())` on each edge.  The
downstream edges are instantiated with the `NodeInput` model above; clones
of a value are equal to the value in this pure model. -/

/-- `CloneOutput::new`: an empty list of downstream edges. -/
def cloneOutputNew {V : Type} : List (EdgeState V) :=
  []

/-- `CloneOutput::connect`: push one more downstream edge at the end. -/
def cloneOutputConnect {V : Type} (outputs : List (EdgeState V)) (e : EdgeState V) :
    List (EdgeState V) :=
  outputs ++ [e]

/-- `CloneOutput::send_activate`: deliver a clone of the item to each
downstream edge, in the order of the list.  The edges are threaded through
because each delivery mutates the target edge's port cell and pending
count. -/
def cloneOutputSendActivate {V : Type} (v : V) :
    List (EdgeState V) → Sched V → Option (List (EdgeState V) × Sched V)
  | [], s => some ([], s)
  | e :: rest, s => do
      let (e2, s2) ← sendActivate v (e, s)
      let (rest2, s3) ← cloneOutputSendActivate v rest s2
      some (e2 :: rest2, s3)

/-- The effect of one delivery on the target edge: the cell now holds the
item and the pending count went down by one. -/
def deliveredEdge {V : Type} (v : V) (e : EdgeState V) : EdgeState V :=
  { cell := v, pending := e.pending - 1, nodeId := e.nodeId }

/-- The events one delivery appends to the trace: the send, the activation,
and, when the edge's activator fires, the scheduling of its node. -/
def deliveryEvents {V : Type} (v : V) (e : EdgeState V) : List (EdgeEvent V) :=
  [EdgeEvent.sendEv e.nodeId v, EdgeEvent.activateEv e.nodeId]
    ++ (if e.pending = 1 then [EdgeEvent.scheduleEv e.nodeId] else [])

/-- The nodes a delivery pushes onto the ready queue: the edge's node when
its activator fires. -/
def deliverySchedules {V : Type} (v : V) (e : EdgeState V) : List Nat :=
  if e.pending = 1 then [e.nodeId] else []

/-- Unfolding lemma for the fan-out delivery over a whole edge list. -/
theorem cloneOutputSendActivate_eq {V : Type} (v : V) (outputs : List (EdgeState V))
    (s : Sched V) (h : ∀ e ∈ outputs, 1 ≤ e.pending) :
    cloneOutputSendActivate v outputs s =
      some (outputs.map (deliveredEdge v),
            { ready := s.ready ++ outputs.flatMap (deliverySchedules v),
              trace := s.trace ++ outputs.flatMap (deliveryEvents v) }) := by
  induction outputs generalizing s with
  | nil => simp [cloneOutputSendActivate]
  | cons e rest ih =>
    have he : 1 ≤ e.pending := h e (by simp)
    have hrest : ∀ x ∈ rest, 1 ≤ x.pending := fun x hx => h x (by simp [hx])
    rw [cloneOutputSendActivate, sendActivate_eq v e s he]
    by_cases h1 : e.pending = 1
    · simp only [h1, if_true, Option.bind_eq_bind, Option.some_bind]
      rw [ih _ hrest]
      simp [deliveredEdge, deliveryEvents, deliverySchedules, h1]
    · simp only [h1, if_false, Option.bind_eq_bind, Option.some_bind]
      rw [ih _ hrest]
      simp [deliveredEdge, deliveryEvents, deliverySchedules, h1]

/-- C9: for a clone-output edge with `n` connected downstream edges and a
value `v`, `send_activate` delivers exactly one clone of `v` to each of the
`n` edges -- every downstream cell ends up holding `v`, each pending count is
decremented once -- and the deliveries happen in the order in which the edges
were added by `connect`: the trace is the concatenation, in list order, of
each edge's send-then-activate events. -/
theorem cloneOutput_delivers_in_order {V : Type} (v : V)
    (outputs : List (EdgeState V)) (s : Sched V)
    (h : ∀ e ∈ outputs, 1 ≤ e.pending) :
    cloneOutputSendActivate v outputs s =
      some (outputs.map (deliveredEdge v),
            { ready := s.ready ++ outputs.flatMap (deliverySchedules v),
              trace := s.trace ++ outputs.flatMap (deliveryEvents v) }) ∧
    (outputs.map (deliveredEdge v)).map EdgeState.cell = outputs.map (fun _ => v) ∧
    (outputs.map (deliveredEdge v)).length = outputs.length := by
  refine ⟨cloneOutputSendActivate_eq v outputs s h, ?_, by simp⟩
  induction outputs with
  | nil => rfl
  | cons e rest ih => simpa [deliveredEdge] using ih (fun x hx => h x (by simp [hx]))

/-- Witness for `cloneOutput_delivers_in_order`: three downstream edges
built by successive `connect` calls, each with pending count 1; the value 7
is delivered to all three, in order of addition. -/
theorem cloneOutput_delivers_in_order_witness :
    cloneOutputSendActivate 7
        (cloneOutputConnect (cloneOutputConnect (cloneOutputConnect cloneOutputNew
          { cell := 0, pending := 1, nodeId := 10 })
          { cell := 0, pending := 1, nodeId := 11 })
          { cell := 0, pending := 2, nodeId := 12 })
        { ready := [], trace := [] } =
      some ([{ cell := 7, pending := 0, nodeId := 10 },
             { cell := 7, pending := 0, nodeId := 11 },
             { cell := 7, pending := 1, nodeId := 12 }],
            { ready := [10, 11],
              trace := [EdgeEvent.sendEv 10 7, EdgeEvent.activateEv 10,
                        EdgeEvent.scheduleEv 10,
                        EdgeEvent.sendEv 11 7, EdgeEvent.activateEv 11,
                        EdgeEvent.scheduleEv 11,
                        EdgeEvent.sendEv 12 7, EdgeEvent.activateEv 12] }) := by
  have h := (cloneOutput_delivers_in_order 7
    (cloneOutputConnect (cloneOutputConnect (cloneOutputConnect cloneOutputNew
      { cell := 0, pending := 1, nodeId := 10 })
      { cell := 0, pending := 1, nodeId := 11 })
      { cell := 0, pending := 2, nodeId := 12 })
    { ready := [], trace := [] } (by decide)).1
  rw [h]
  rfl

/-! ### Reusable (multiple-use) activators (`src/parallel/multiple_uses.rs`)

`RcActivatorInner` holds an atomic `pending` count, an atomic `initial`
count, and the node handle.  `RcActivatorInner::new` starts with
`pending = 0`, `initial = 1` (the `1` accounts for the handle itself).
`rearm` asserts the pending count is 0 and swaps in `initial`;
`decrement_pending` asserts the old pending count is positive and returns
the decremented count.  Asserting operations return `none` on the panic
path.  The node handle is irrelevant to the counting protocol and is left
out of the structure; scheduling shows up as events. -/

/-- The counting state of `RcActivatorInner` in the reusable runtime. -/
structure MuInner where
  pending : Nat
  initial : Nat
deriving DecidableEq, Repr

/-- `RcActivatorInner::new`: `pending = 0`, `initial = 1`. -/
def muInnerNew : MuInner :=
  { pending := 0, initial := 1 }

/-- `RcActivatorInner::rearm`: `assert!(pending.swap(initial) == 0)`;
`none` models the failed assert. -/
def MuInner.rearm (i : MuInner) : Option MuInner :=
  if i.pending = 0 then some { i with pending := i.initial } else none

/-- `RcActivatorInner::decrement_pending`: `old = pending.fetch_sub(1);
assert!(old > 0); old - 1`.  `none` models the failed assert. -/
def MuInner.decrementPending (i : MuInner) : Option (Nat × MuInner) :=
  if i.pending = 0 then none
  else some (i.pending - 1, { i with pending := i.pending - 1 })

/-- `RcBuilder::new` (reusable): wraps a fresh `RcActivatorInner`. -/
def muBuilderNew : MuInner :=
  muInnerNew

/-- `RcBuilder::add_activator` (reusable): `initial.fetch_add(1)` and hand
out one more shared reference. -/
def muAddActivator (i : MuInner) : MuInner :=
  { i with initial := i.initial + 1 }

/-- `RcBuilder::finalize` (reusable): `self.inner.rearm();
self.inner.decrement_pending();` -- the decremented count is discarded, so
finalize never schedules the node, whatever the count.  The ready queue is
threaded through unchanged to make that visible. -/
def muFinalize (i : MuInner) (ready : List Nat) : Option (MuInner × List Nat) := do
  let i1 ← i.rearm
  let (_, i2) ← i1.decrementPending
  some (i2, ready)

/-- `RcActivator::activate` (reusable): decrement the pending count and,
when the new count is 0, push the node (here: id `n`) onto the ready
queue. -/
def muActivate (n : Nat) (i : MuInner) (ready : List Nat) :
    Option (MuInner × List Nat) := do
  let (newp, i2) ← i.decrementPending
  if newp = 0 then some (i2, ready ++ [n]) else some (i2, ready)

/-! `RcHandle::execute_once` runs, in this order:
1. `self.inner.rearm()`;
2. `self.inner.handle.lock().unwrap().execute_mut(scheduler)` -- the task
   body, during which the node's own activator may be activated further; and
3. `RcActivator { inner: self.inner }.activate_once(scheduler)` -- one
   decrement releasing the handle's own reference (the `1` included in
   `initial`), which reschedules the node when the count reaches 0.
The events below record the order of these steps; the body is modelled by
the number `a` of times it activates this same node's activator, each such
activation being an honored `decrement_pending`. -/

/-- Events of one `execute_once`, in execution order. -/
inductive MuEvent where
  /-- `rearm`: the pending count was reset to `initial` -/
  | rearmEv
  /-- the task body starts running -/
  | bodyStartEv
  /-- an activation of this node's own activator during the body -/
  | activateEv
  /-- the task body returned -/
  | bodyEndEv
  /-- the handle's own decrement after the body -/
  | decrementEv
  /-- the node was pushed back onto the ready queue -/
  | scheduleEv
deriving DecidableEq, Repr

/-- The activations performed on this node's activator by the task body:
`a` honored decrements, each scheduling the node if it brings the count to
zero. -/
def muBodyLoop : Nat → MuInner → Option (MuInner × List MuEvent)
  | 0, i => some (i, [])
  | a + 1, i => do
      let (newp, i2) ← i.decrementPending
      let evs1 := if newp = 0 then [MuEvent.activateEv, MuEvent.scheduleEv]
                  else [MuEvent.activateEv]
      let (i3, evs) ← muBodyLoop a i2
      some (i3, evs1 ++ evs)

/-- `RcHandle::execute_once`: rearm, run the body (which performs `a`
activations of this node), then decrement once for the handle's reference,
rescheduling the node if that decrement reaches zero. -/
def muExecuteOnce (a : Nat) (i : MuInner) : Option (MuInner × List MuEvent) := do
  let i1 ← i.rearm
  let (i2, evs) ← muBodyLoop a i1
  let (newp, i3) ← i2.decrementPending
  some (i3, [MuEvent.rearmEv, MuEvent.bodyStartEv] ++ evs
        ++ [MuEvent.bodyEndEv, MuEvent.decrementEv]
        ++ (if newp = 0 then [MuEvent.scheduleEv] else []))

/-! ### Single-use activators (`src/parallel/single_use.rs`)

`RcActivatorInner` holds an atomic `pending` count and the boxed node; it is
shared through an `Arc`.  `RcActivator::activate_once` does
`if self.inner.pending.fetch_sub(1, SeqCst) == 1 {
  scheduler.schedule(Arc::try_unwrap(self.inner).ok().unwrap().handle) }`.
The `fetch_sub` is an unchecked wrapping subtraction on `usize` (modelled
modulo `2 ^ 64`, a 64-bit platform): there is no assert in this runtime.
`Arc::try_unwrap` succeeds only when the caller holds the last strong
reference; otherwise `.ok().unwrap()` panics.  `refs` models the strong
count of the `Arc` (builder + outstanding activators + this caller); when
the activation does not fire, dropping the consumed activator releases one
reference. -/

/-- Number of values of `usize` on a 64-bit platform. -/
def usizeSize : Nat := 2 ^ 64

/-- The shared inner structure of a single-use activator: the pending count
and the `Arc` strong count over the structure. -/
structure SuInner where
  pending : Nat
  refs : Nat
deriving DecidableEq, Repr

/-- Outcome of `RcActivator::activate_once` in the single-use runtime. -/
inductive SuOutcome where
  /-- the 1-to-0 transition was observed and the node was scheduled -/
  | scheduled
  /-- the decrement did not observe the 1-to-0 transition; no side effect
  besides the decrement and dropping this activator's reference -/
  | noop
  /-- `Arc::try_unwrap(..).ok().unwrap()` panicked: the 1-to-0 transition
  was observed while other references to the inner structure remain -/
  | panicked
deriving DecidableEq, Repr

/-- `RcActivator::activate_once` (single-use): wrapping `fetch_sub(1)`;
on observing old value 1, unwrap the `Arc` (panicking unless this is the
last reference) and schedule the node. -/
def suActivateOnce (i : SuInner) : SuOutcome × SuInner :=
  let old := i.pending
  let p2 := (old + (usizeSize - 1)) % usizeSize
  if old = 1 then
    if i.refs = 1 then (SuOutcome.scheduled, { pending := p2, refs := 0 })
    else (SuOutcome.panicked, { pending := p2, refs := i.refs })
  else (SuOutcome.noop, { pending := p2, refs := i.refs - 1 })

/-- A single-use `RcBuilder`: the shared inner (the builder itself holds one
`Arc` reference) plus the count of activators handed out. -/
structure SuBuilder where
  inner : SuInner
  numActivators : Nat
deriving DecidableEq, Repr

/-- `RcBuilder::new` (single-use): fresh inner with `pending = 0`, one
reference (the builder's own). -/
def suBuilderNew : SuBuilder :=
  { inner := { pending := 0, refs := 1 }, numActivators := 0 }

/-- `RcBuilder::add_activator` (single-use): `num_activators += 1` and clone
the `Arc` (one more reference). -/
def suAddActivator (b : SuBuilder) : SuBuilder :=
  { inner := { b.inner with refs := b.inner.refs + 1 },
    numActivators := b.numActivators + 1 }

/-- `RcBuilder::finalize` (single-use):
`self.inner.pending.store(self.num_activators, SeqCst)` -- a plain store of
the activator count, with no decrement and no scheduling; the builder's
reference stays alive. -/
def suFinalize (b : SuBuilder) : SuInner :=
  { b.inner with pending := b.numActivators }

/-- C2 (evaluation at the failing input): finalizing a builder with no
external activators schedules nothing.  In the reusable runtime, `finalize`
rearms (`pending := initial = 1`) and then decrements once, but discards
the decremented count, so even though the count reaches 0 the ready queue
is left unchanged and the node is never scheduled.  In the single-use
runtime, `finalize` merely stores `pending := num_activators = 0`, again
scheduling nothing.  In both runtimes such a node never runs, where the
specification expects it to be scheduled at once and run exactly once. -/
theorem finalize_never_schedules :
    muFinalize muBuilderNew [] = some ({ pending := 0, initial := 1 }, []) ∧
    suFinalize suBuilderNew = { pending := 0, refs := 1 } := by
  constructor
  · rfl
  · rfl

/-- C4 counterexample: in the reusable runtime, `execute_once` rearms the
activator (resetting `pending` to `initial`) as its very first step, before
the task body runs -- not after the body completes.  Concretely, for a node
with `initial = 2` executed with a body that performs no activation, the
recorded trace places the rearm strictly before the start of the body (and
hence before its completion), and the pending count during the body is
already the rearmed `initial` value minus nothing. -/
theorem rearm_before_body :
    muExecuteOnce 0 { pending := 0, initial := 2 } =
      some ({ pending := 1, initial := 2 },
            [MuEvent.rearmEv, MuEvent.bodyStartEv, MuEvent.bodyEndEv,
             MuEvent.decrementEv]) ∧
    List.indexOf MuEvent.rearmEv
        [MuEvent.rearmEv, MuEvent.bodyStartEv, MuEvent.bodyEndEv,
         MuEvent.decrementEv] <
      List.indexOf MuEvent.bodyStartEv
        [MuEvent.rearmEv, MuEvent.bodyStartEv, MuEvent.bodyEndEv,
         MuEvent.decrementEv] := by
  constructor
  · rfl
  · decide

/-- Normal form of the body activation loop: `a` honored activations on a
count of `p` with `a < p` leave `p - a` pending and never reschedule the
node during the body. -/
theorem muBodyLoop_eq (a : Nat) (i : MuInner) (h : a < i.pending) :
    muBodyLoop a i =
      some ({ pending := i.pending - a, initial := i.initial },
            List.replicate a MuEvent.activateEv) := by
  induction a generalizing i with
  | zero => simp [muBodyLoop]
  | succ a ih =>
    have hp : i.pending ≠ 0 := by omega
    have hne : ¬ (i.pending - 1 = 0) := by omega
    rw [muBodyLoop, MuInner.decrementPending]
    simp only [hp, if_false, Option.bind_eq_bind, Option.some_bind, hne]
    rw [ih { i with pending := i.pending - 1 } (by simp; omega)]
    simp only [Option.some_bind, if_false, hne]
    have : i.pending - 1 - a = i.pending - (a + 1) := by omega
    simp [this, List.replicate_succ]

/-- C4 (amended): in the reusable runtime, `execute_once` rearms the
activator (`pending := initial`) immediately *before* running the task
body; activations arriving during the body are honored as ordinary
decrements (the body performing `a < initial` of them leaves
`initial - a` pending, and cannot fire the node because `initial` includes
one reference for the handle); and only on return from the body does the
handle's own decrement run, rescheduling the node exactly when it brings
the count to zero. -/
theorem execute_once_rearm_first (a : Nat) (i : MuInner)
    (h0 : i.pending = 0) (ha : a < i.initial) :
    muExecuteOnce a i =
      some ({ pending := i.initial - a - 1, initial := i.initial },
            [MuEvent.rearmEv, MuEvent.bodyStartEv]
              ++ List.replicate a MuEvent.activateEv
              ++ [MuEvent.bodyEndEv, MuEvent.decrementEv]
              ++ (if i.initial - a - 1 = 0 then [MuEvent.scheduleEv] else [])) := by
  rw [muExecuteOnce, MuInner.rearm]
  simp only [h0, if_true, Option.bind_eq_bind, Option.some_bind]
  rw [muBodyLoop_eq a { i with pending := i.initial } (by simpa using ha)]
  simp only [Option.some_bind]
  rw [MuInner.decrementPending]
  have hne : ¬ (i.initial - a = 0) := by omega
  simp only [hne, if_false, Option.some_bind]

/-- Witness for `execute_once_rearm_first`: a node with `initial = 3`
(two external activators plus the handle), body performing one activation;
after execution one activation is still missing, so the node is not
rescheduled. -/
theorem execute_once_rearm_first_witness :
    muExecuteOnce 1 { pending := 0, initial := 3 } =
      some ({ pending := 1, initial := 3 },
            [MuEvent.rearmEv, MuEvent.bodyStartEv]
              ++ List.replicate 1 MuEvent.activateEv
              ++ [MuEvent.bodyEndEv, MuEvent.decrementEv]
              ++ (if 3 - 1 - 1 = 0 then [MuEvent.scheduleEv] else [])) := by
  exact execute_once_rearm_first 1 { pending := 0, initial := 3 } rfl (by decide)

/-- C5 counterexample: in the single-use runtime the decrement is *not*
asserted.  Activating an activator whose pending count is already 0 (here a
never-armed one whose only reference is the caller's) performs an unchecked
wrapping `fetch_sub`: the outcome is `noop` -- not `panicked` -- and the
pending count silently wraps around to `usize::MAX`. -/
theorem single_use_zero_activate_no_panic :
    suActivateOnce { pending := 0, refs := 1 } =
      (SuOutcome.noop, { pending := 2 ^ 64 - 1, refs := 0 }) := by
  rfl

/-- C5 (amended): an activation on an already-zero pending count panics via
the asserted decrement in the *multiple-use* runtime only -- there, a second
activation through one wired activator hits `assert!(old_pending > 0)` and
panics.  In the *single-use* runtime the decrement is an unchecked wrapping
`fetch_sub`: activating at pending 0 does not panic, schedules nothing, and
leaves the count wrapped to `usize::MAX`. -/
theorem double_activate_asserts_multiple_use_only (i : MuInner) (j : SuInner)
    (hi : i.pending = 0) (hj : j.pending = 0) :
    i.decrementPending = none ∧
    muActivate 0 i [] = none ∧
    (suActivateOnce j).1 = SuOutcome.noop ∧
    (suActivateOnce j).2.pending = 2 ^ 64 - 1 := by
  have h1 : i.decrementPending = none := by
    rw [MuInner.decrementPending]
    simp [hi]
  refine ⟨h1, ?_, ?_, ?_⟩
  · rw [muActivate, h1]
    rfl
  · rw [suActivateOnce]
    simp [hj]
  · rw [suActivateOnce]
    simp [hj, usizeSize]

/-- Witness for `double_activate_asserts_multiple_use_only`: the state
reached by wiring exactly one activator to a reusable node, finalizing and
activating once (pending `0`, `initial = 2`), together with a never-armed
single-use activator. -/
theorem double_activate_asserts_multiple_use_only_witness :
    MuInner.decrementPending { pending := 0, initial := 2 } = none ∧
    muActivate 0 { pending := 0, initial := 2 } [] = none ∧
    (suActivateOnce { pending := 0, refs := 2 }).1 = SuOutcome.noop ∧
    (suActivateOnce { pending := 0, refs := 2 }).2.pending = 2 ^ 64 - 1 := by
  exact double_activate_asserts_multiple_use_only
    { pending := 0, initial := 2 } { pending := 0, refs := 2 } rfl rfl

/-- Sanity: the scenario of claim C5 in the reusable runtime.  One external
activator is wired (`initial = 2` counting the handle), the node is
finalized (pending `1`), a first activation fires the node, and the second
activation panics in `decrement_pending`. -/
theorem double_activate_scenario_multiple_use :
    muFinalize (muAddActivator muBuilderNew) [] =
      some ({ pending := 1, initial := 2 }, []) ∧
    muActivate 7 { pending := 1, initial := 2 } [] =
      some ({ pending := 0, initial := 2 }, [7]) ∧
    muActivate 7 { pending := 0, initial := 2 } [] = none := by
  refine ⟨rfl, rfl, rfl⟩

/-- C10: in the single-use runtime, the activation that observes the 1-to-0
pending transition schedules the node through
`Arc::try_unwrap(self.inner).ok().unwrap()`, so it panics whenever any
other reference to the shared inner structure is still alive (`refs >= 2`)
and only schedules when the caller holds the last reference
(`refs = 1`). -/
theorem single_use_fire_needs_last_reference (i : SuInner)
    (h1 : i.pending = 1) (h2 : 2 ≤ i.refs) :
    (suActivateOnce i).1 = SuOutcome.panicked ∧
    (suActivateOnce { i with refs := 1 }).1 = SuOutcome.scheduled := by
  have hr : i.refs ≠ 1 := by omega
  constructor
  · rw [suActivateOnce]
    simp [h1, hr]
  · rw [suActivateOnce]
    simp [h1]

/-- Witness for `single_use_fire_needs_last_reference`: the builder wires
one activator (`refs = 2`: builder + activator) and finalizes
(`pending = 1`); activating while the builder is still alive panics, while
the same activation with only the activator's reference left schedules. -/
theorem single_use_fire_needs_last_reference_witness :
    (suActivateOnce (suFinalize (suAddActivator suBuilderNew))).1 =
      SuOutcome.panicked ∧
    (suActivateOnce { suFinalize (suAddActivator suBuilderNew) with refs := 1 }).1 =
      SuOutcome.scheduled := by
  exact single_use_fire_needs_last_reference
    (suFinalize (suAddActivator suBuilderNew)) rfl (by decide)

/-! ### The work-stealing `execute` loop
(`Toexec::execute` in `src/parallel/single_use.rs` and
`src/parallel/multiple_uses.rs`; the two bodies are identical up to the
node type)

`execute(k)` creates `k` FIFO deques, pushing `(worker, stealer)` pairs into
the vectors `fifos` and `stealers` in index order.  The loop over
`i in 0..k` then gives worker `i` the deque obtained by `fifos.pop()` --
the pop takes from the *end* of the vector, so worker `i` owns the deque of
index `k - 1 - i` -- and the stealer list built from the loops
`for w in (j+1)..k` and `for w in 0..j`, i.e. the indices
`j+1, ..., k-1, 0, ..., j-1`.  Worker 0 receives the initial ready work. -/

/-- The stealer list built for worker `j` out of `k`: the deque indices
`j+1, ..., k-1` followed by `0, ..., j-1`. -/
def stealersFor (k j : Nat) : List Nat :=
  List.range' (j + 1) (k - (j + 1)) ++ List.range j

/-- The deque owned by worker `j`: `fifos.pop()` hands worker `j` the deque
of index `k - 1 - j`. -/
def ownedDeque (k j : Nat) : Nat :=
  k - 1 - j

/-- C3 counterexample: for `k = 2`, worker 0 owns deque `1`
(`fifos.pop()` hands it the *last* deque) while its stealer list is exactly
`[1]` -- the stealer of its own deque, not of the other worker's.  The
claim that a worker's stealer list never contains its own deque is false. -/
theorem stealer_list_contains_own_deque :
    stealersFor 2 0 = [1] ∧
    ownedDeque 2 0 = 1 ∧
    ownedDeque 2 0 ∈ stealersFor 2 0 := by
  refine ⟨rfl, rfl, by decide⟩

/-- C3 (amended): worker `j`'s stealer list is the rotation
`(j+1) mod k, (j+2) mod k, ..., (j-1) mod k` of deque *indices* -- `k - 1`
entries, omitting index `j` -- but worker `j` does not own deque `j`:
`fifos.pop()` hands it deque `k - 1 - j`.  Hence the list omits the deque
owned by worker `k - 1 - j` and, whenever `j` is not equal to `k - 1 - j`,
contains the stealer of worker `j`'s own deque. -/
theorem stealer_list_rotation (k j : Nat) (hj : j < k) :
    stealersFor k j = (List.range (k - 1)).map (fun t => (j + 1 + t) % k) ∧
    (stealersFor k j).length = k - 1 ∧
    j ∉ stealersFor k j ∧
    (j ≠ k - 1 - j → ownedDeque k j ∈ stealersFor k j) := by
  have hlen : (stealersFor k j).length = k - 1 := by
    simp [stealersFor]
    omega
  have hmem : ∀ x, x ∈ stealersFor k j ↔ (j + 1 ≤ x ∧ x < k) ∨ x < j := by
    intro x
    simp [stealersFor, List.mem_range'_1, List.mem_range]
    omega
  refine ⟨?_, hlen, ?_, ?_⟩
  · apply List.ext_getElem
    · simp [hlen]
    · intro t h1 h2
      rw [List.getElem_map, List.getElem_range]
      simp only [stealersFor]
      by_cases ht : t < k - (j + 1)
      · rw [List.getElem_append_left (by simpa using ht)]
        rw [List.getElem_range']
        have hlt : j + 1 + t < k := by omega
        rw [Nat.mod_eq_of_lt hlt]
        omega
      · rw [List.getElem_append_right (by simpa using ht)]
        rw [List.getElem_range]
        have hge : k ≤ j + 1 + t := by omega
        have hmod : (j + 1 + t) % k = j + 1 + t - k := by
          rw [Nat.mod_eq_sub_mod hge, Nat.mod_eq_of_lt]
          simp only [hlen] at h2
          omega
        rw [hmod]
        simp only [List.length_range']
        omega
  · rw [hmem]
    omega
  · intro hne
    rw [hmem, ownedDeque]
    omega

/-- Witness for `stealer_list_rotation` at `k = 3`, `j = 0`: the list is
`[1, 2]`, it omits index `0`, and it contains deque `2 = ownedDeque 3 0`,
worker 0's own deque. -/
theorem stealer_list_rotation_witness :
    stealersFor 3 0 = (List.range (3 - 1)).map (fun t => (0 + 1 + t) % 3) ∧
    (stealersFor 3 0).length = 3 - 1 ∧
    0 ∉ stealersFor 3 0 ∧
    (0 ≠ 3 - 1 - 0 → ownedDeque 3 0 ∈ stealersFor 3 0) := by
  exact stealer_list_rotation 3 0 (by decide)

/-! ### The steal phase and idle-tour exit (both runtimes)

When a worker's own deque is empty it enters the inner loop:

```
let mut i = 0;
let mut tour = Arc::new(Compteur::new(0));
loop {
    match runtime_loc.stealers[i].steal() {
        Some(t) => { t.execute(..); break },
        None => (),
    }
    i = (i + 1) % (k - 1);
    if i == 0 {
        if tour.get() == 10 { return; }
        else { tour.inc(); thread::yield_now(); }
    }
}
```

`stealLoop` below models this inner loop for `k >= 2` in the quiescent
situation where every probe finds the peer deques empty (steal always
returns `None`), which is the situation governing termination.  One fuel
unit is one loop iteration (one probe).  The result counts the completed
full rounds of `k - 1` probes at the moment the worker exits, paired with
the final value of the `tour` counter (the number of yields performed);
`none` means the fuel ran out with the worker still looping. -/

/-- The steal-phase inner loop with all peer deques empty: arguments are
fuel, the probe index `i`, the `tour` counter, and the number of completed
empty full rounds so far. -/
def stealLoop (k : Nat) : Nat → Nat → Nat → Nat → Option (Nat × Nat)
  | 0, _, _, _ => none
  | fuel + 1, i, tour, rounds =>
    let i2 := (i + 1) % (k - 1)
    if i2 = 0 then
      if tour = 10 then some (rounds + 1, tour)
      else stealLoop k fuel i2 (tour + 1) (rounds + 1)
    else stealLoop k fuel i2 tour rounds

/-- One full round of `k - 1` empty probes, starting `m` probes before the
round boundary: either the exit check fires (`tour = 10`) or the round
completes with `tour` incremented. -/
theorem stealLoop_round (k : Nat) (hk : 2 ≤ k) (m f tour rounds : Nat)
    (hm1 : 1 ≤ m) (hm2 : m ≤ k - 1) :
    stealLoop k (m + f) ((k - 1) - m) tour rounds =
      if tour = 10 then some (rounds + 1, tour)
      else stealLoop k f 0 (tour + 1) (rounds + 1) := by
  induction m generalizing tour rounds with
  | zero => omega
  | succ m ih =>
    rw [show m + 1 + f = (m + f) + 1 by omega, stealLoop]
    by_cases hm0 : m = 0
    · subst hm0
      have hi : (k - 1) - 1 + 1 = k - 1 := by omega
      simp only [hi, Nat.mod_self, if_true, Nat.zero_add]
    · have hi : ((k - 1) - (m + 1)) + 1 = (k - 1) - m := by omega
      have hlt : (k - 1) - m < k - 1 := by omega
      have hne : (k - 1) - m ≠ 0 := by omega
      simp only [hi, Nat.mod_eq_of_lt hlt, hne, if_false]
      exact ih tour rounds (by omega) (by omega)

/-- With all peers empty, starting a steal phase with `tour = 11 - n`
(for `1 <= n <= 11`) the worker exits after `n` more full rounds, never
having observed a successful steal. -/
theorem stealLoop_rounds (k : Nat) (hk : 2 ≤ k) (n tour rounds : Nat)
    (hn : 1 ≤ n) (htn : tour + n = 11) :
    stealLoop k (n * (k - 1)) 0 tour rounds = some (rounds + n, 10) := by
  induction n generalizing tour rounds with
  | zero => omega
  | succ n ih =>
    have hround := stealLoop_round k hk (k - 1) (n * (k - 1)) tour rounds
      (by omega) (by omega)
    rw [show (k - 1) - (k - 1) = 0 by omega] at hround
    rw [show (n + 1) * (k - 1) = (k - 1) + n * (k - 1) by ring, hround]
    by_cases ht : tour = 10
    · have : n = 0 := by omega
      subst this ht
      simp
    · simp only [ht, if_false]
      have hn1 : 1 ≤ n := by omega
      rw [ih (tour + 1) (rounds + 1) hn1 (by omega)]
      have : rounds + 1 + n = rounds + (n + 1) := by omega
      rw [this]

/-- C7 counterexample: with `IDLE_TOUR_LIMIT = 10` the worker does *not*
exit after 10 consecutive empty full rounds.  For `k = 2` (rounds of one
probe), after 10 rounds' worth of iterations the worker is still looping
(`none` = fuel exhausted while looping), and it exits only at the end of
the 11th consecutive empty round, having yielded 10 times. -/
theorem idle_exit_after_eleven_rounds :
    stealLoop 2 10 0 0 0 = none ∧
    stealLoop 2 11 0 0 0 = some (11, 10) := by
  refine ⟨by rfl, by rfl⟩

/-- C7 (amended): in the steal phase, after each of the first 10 full
rounds of `k - 1` probes that yield nothing the worker yields the OS thread
and increments the idle-tour counter; the exit check `tour == 10` succeeds
only at the end of the *11th* consecutive empty full round, so the worker
exits after `IDLE_TOUR_LIMIT + 1 = 11` empty full rounds, with the counter
(the number of yields) at 10. -/
theorem idle_tour_exit (k : Nat) (hk : 2 ≤ k) :
    stealLoop k (11 * (k - 1)) 0 0 0 = some (11, 10) ∧
    stealLoop k (10 * (k - 1)) 0 0 0 = none := by
  constructor
  · exact stealLoop_rounds k hk 11 0 0 (by omega) (by omega)
  · have : ∀ n tour rounds, tour + n ≤ 10 →
        stealLoop k (n * (k - 1)) 0 tour rounds = none := by
      intro n
      induction n with
      | zero => intro tour rounds _; simp [stealLoop]
      | succ n ih =>
        intro tour rounds h
        have hround := stealLoop_round k hk (k - 1) (n * (k - 1)) tour rounds
          (by omega) (by omega)
        rw [show (k - 1) - (k - 1) = 0 by omega] at hround
        rw [show (n + 1) * (k - 1) = (k - 1) + n * (k - 1) by ring, hround]
        have ht : tour ≠ 10 := by omega
        simp only [ht, if_false]
        exact ih (tour + 1) (rounds + 1) (by omega)
    exact this 10 0 0 (by omega)

/-- Witness for `idle_tour_exit` at `k = 2`. -/
theorem idle_tour_exit_witness :
    stealLoop 2 (11 * (2 - 1)) 0 0 0 = some (11, 10) ∧
    stealLoop 2 (10 * (2 - 1)) 0 0 0 = none := by
  exact idle_tour_exit 2 (by decide)

/-! ### `execute(1)`: the single-worker case

For `k = 1` there is exactly one worker, worker 0; its stealer list
`stealersFor 1 0` is empty.  The worker loop pops tasks from its own FIFO
deque and executes them (an executed node may schedule further nodes, which
are pushed at the back of the deque); when the deque is empty it enters the
steal phase, whose very first operation is the indexing
`runtime_loc.stealers[0]` -- an out-of-bounds panic on the empty stealer
vector (the following `i = (i + 1) % (k - 1)` would likewise be a
remainder-by-zero panic).  `spawn t` gives the nodes that executing node
`t` schedules; fuel bounds the number of loop iterations. -/

/-- Outcome of the worker loop. -/
inductive ExecOutcome where
  /-- the worker returned normally (the idle-tour exit) -/
  | finished
  /-- the worker thread panicked -/
  | panicked
  /-- the fuel ran out with the worker still looping -/
  | outOfFuel
deriving DecidableEq, Repr

/-- The `k = 1` worker loop: pop-and-execute from the local FIFO deque
until it is empty, then enter the steal phase, which immediately indexes
into the empty stealer list.  The `some` branch is unreachable
(`stealersFor 1 0 = []`); it models the Rust code executing a stolen node
and returning to the outer loop via the idle-tour exit eventually. -/
def workerLoopK1 (spawn : Nat → List Nat) : Nat → List Nat → ExecOutcome
  | 0, _ => ExecOutcome.outOfFuel
  | fuel + 1, q =>
    match q with
    | [] =>
      match (stealersFor 1 0).get? 0 with
      | none => ExecOutcome.panicked
      | some _ => ExecOutcome.finished
    | t :: rest => workerLoopK1 spawn fuel (rest ++ spawn t)

/-- C6 (evaluation at the failing input): `execute(1)` never returns
normally.  Worker 0's stealer list is empty, so the loop for `k = 1` ends
in the out-of-bounds panic `stealers[0]` as soon as the local deque is
exhausted: for every graph the outcome is `panicked` (or the fuel runs
out), never `finished`; concretely, a graph with a single root task that
schedules nothing panics on the third iteration. -/
theorem execute_single_worker_panics :
    stealersFor 1 0 = [] ∧
    (∀ (spawn : Nat → List Nat) (fuel : Nat) (q : List Nat),
      workerLoopK1 spawn fuel q = ExecOutcome.panicked ∨
      workerLoopK1 spawn fuel q = ExecOutcome.outOfFuel) ∧
    workerLoopK1 (fun _ => []) 2 [7] = ExecOutcome.panicked := by
  refine ⟨rfl, ?_, rfl⟩
  intro spawn fuel
  induction fuel with
  | zero => intro q; right; rfl
  | succ fuel ih =>
    intro q
    match q with
    | [] => left; rfl
    | t :: rest => exact ih (rest ++ spawn t)
